import Mathlib

/-!
Shallow embedding of the Projective Fluids implicit solver
(`SPlisHSPlasH/PF/TimeStepPF.cpp`) over exact rational arithmetic.

Machine `Real` values are modelled as `ℚ`; the atomic compare-and-swap
accumulation loops of the source are modelled as ordinary commutative
additions folded over the particle range (the source's accumulation is
order-insensitive by design).  Flattened `3N`-vectors (`VectorXr`) are
modelled as functions `ℕ → ℚ` that are meaningful on indices `< 3N`.
-/

namespace PF

/-- A 3-component vector, the embedding of `Vector3r`. -/
structure Vec3 where
  x : ℚ
  y : ℚ
  z : ℚ
deriving DecidableEq

instance : Zero Vec3 := ⟨⟨0, 0, 0⟩⟩

instance : Add Vec3 := ⟨fun a b => ⟨a.x + b.x, a.y + b.y, a.z + b.z⟩⟩

instance : Neg Vec3 := ⟨fun a => ⟨-a.x, -a.y, -a.z⟩⟩

instance : Sub Vec3 := ⟨fun a b => ⟨a.x - b.x, a.y - b.y, a.z - b.z⟩⟩

instance : SMul ℚ Vec3 := ⟨fun q a => ⟨q * a.x, q * a.y, q * a.z⟩⟩

instance : HDiv Vec3 ℚ Vec3 := ⟨fun a q => ⟨a.x / q, a.y / q, a.z / q⟩⟩

/-- Squared Euclidean norm of a 3-vector. -/
def sqnorm3 (v : Vec3) : ℚ := v.x * v.x + v.y * v.y + v.z * v.z

/-- Component `c ∈ {0,1,2}` of a 3-vector. -/
def Vec3.comp (v : Vec3) (c : ℕ) : ℚ :=
  if c = 0 then v.x else if c = 1 then v.y else v.z

/-- A neighbor reference as returned by the neighborhood search:
point-set id 0 is the fluid set, other ids are boundary sets. -/
structure NeighborId where
  point_set_id : ℕ
  point_id : ℕ
deriving DecidableEq

/-- The external data the solver reads: particle counts, masses, the
neighbor lists of the fluid particles, boundary data, the SPH kernel
and the configured stiffness / rest density / time-step size. -/
structure Model where
  numParticles : ℕ
  mass : ℕ → ℚ
  density0 : ℚ
  stiffness : ℚ
  neighbors : ℕ → List NeighborId
  boundaryPsi : ℕ → ℕ → ℚ
  bPos : ℕ → ℕ → Vec3
  Wzero : ℚ
  W : Vec3 → ℚ
  gradW : Vec3 → Vec3
  h : ℚ

/-- Flattened solver vectors (`VectorXr`): index `3*i + c` holds
coordinate `c` of particle `i`. -/
abbrev RVec := ℕ → ℚ

/-- The 3-vector block of particle `i` inside a flattened vector
(the embedding of `x.Vec3Block(i)`). -/
def xVec3 (x : RVec) (i : ℕ) : Vec3 := ⟨x (3 * i), x (3 * i + 1), x (3 * i + 2)⟩

/-- Dot product of the first `3*N` entries of two flattened vectors
(the embedding of `VectorXr::dot` / `squaredNorm` on size-`3N` vectors). -/
def dotN (N : ℕ) (u v : RVec) : ℚ :=
  ((List.range (3 * N)).map (fun n => u n * v n)).sum

/-- Index `n` lies in the 3-entry block of particle `j`. -/
def inBlock (n j : ℕ) : Prop := n = 3 * j ∨ n = 3 * j + 1 ∨ n = 3 * j + 2

instance (n j : ℕ) : Decidable (inBlock n j) := by
  unfold inBlock
  exact inferInstance

/-- Add the three components of `v` into the block of particle `blk` of the
accumulation buffer: the embedding of the three `addToAtomicReal` calls on
`accumulator[3*blk+c]`, `c = 0,1,2`. -/
def addBlock (acc : RVec) (blk : ℕ) (v : Vec3) : RVec :=
  fun n =>
    if n = 3 * blk then acc n + v.x
    else if n = 3 * blk + 1 then acc n + v.y
    else if n = 3 * blk + 2 then acc n + v.z
    else acc n

/-- The value `addBlock` adds at index `n`. -/
def blockEntry (v : Vec3) (blk n : ℕ) : ℚ :=
  if n = 3 * blk then v.x
  else if n = 3 * blk + 1 then v.y
  else if n = 3 * blk + 2 then v.z
  else 0

/-- One particle's pass of the pressure-accumulation loop of
`matrixFreeLHS`: add `x`'s block `i` into the accumulator's block `i`, and
for every fluid neighbor `id` of `i` add `x`'s block `id` into the
accumulator's block `id`; boundary neighbors are skipped. -/
def lhsAccumStep (m : Model) (x : RVec) (acc : RVec) (i : ℕ) : RVec :=
  (m.neighbors i).foldl
    (fun a id =>
      if id.point_set_id = 0 then addBlock a id.point_id (xVec3 x id.point_id) else a)
    (addBlock acc i (xVec3 x i))

/-- The full pressure accumulator of `matrixFreeLHS`: the zero-initialized
transient buffer after all particles' passes. -/
def lhsAccumulator (m : Model) (x : RVec) : RVec :=
  (List.range m.numParticles).foldl (lhsAccumStep m x) (fun _ => 0)

/-- The matrix-free application of the system matrix to `x`
(`TimeStepPF::matrixFreeLHS`): for `n < 3*numParticles`,
`result[n] = h²·stiffness·accumulator[n] + mass[n/3]·x[n]`. -/
def matrixFreeLHS (m : Model) (x : RVec) : RVec :=
  fun n =>
    if n < 3 * m.numParticles then
      m.h * m.h * m.stiffness * lhsAccumulator m x n + m.mass (n / 3) * x n
    else 0

/-- The entrywise contribution of particle `i`'s pass to the pressure
accumulator of `matrixFreeLHS`, as described by the specification: `x_i`
into block `i`, and `x_j` into block `j` for every fluid neighbor `j` of
`i`; boundary neighbors contribute nothing. -/
def lhsContribution (m : Model) (x : RVec) (i n : ℕ) : ℚ :=
  blockEntry (xVec3 x i) i n +
    ((m.neighbors i).map
      (fun id =>
        if id.point_set_id = 0 then blockEntry (xVec3 x id.point_id) id.point_id n
        else 0)).sum

/-- The pressure accumulator described by the specification: the plain sum
over all particles of their contributions. -/
def specLHSAccumulator (m : Model) (x : RVec) (n : ℕ) : ℚ :=
  ((List.range m.numParticles).map (fun i => lhsContribution m x i n)).sum

/-- How often index `n`'s block is hit during the accumulation: once for its
own particle's self contribution and once per occurrence of its particle as
a fluid neighbor. -/
def degCoef (m : Model) (n : ℕ) : ℚ :=
  ((List.range m.numParticles).map
    (fun i =>
      (if inBlock n i then (1 : ℚ) else 0) +
        ((m.neighbors i).map
          (fun id =>
            if id.point_set_id = 0 ∧ inBlock n id.point_id then (1 : ℚ) else 0)).sum)).sum

/-- The diagonal entry of the system matrix at index `n`. -/
def Acoef (m : Model) (n : ℕ) : ℚ :=
  if n < 3 * m.numParticles then
    m.h * m.h * m.stiffness * degCoef m n + m.mass (n / 3)
  else 0

/-- Convergence goal of the local projection (`C_goal = 1e-14`). -/
def projCGoal : ℚ := 1 / 10 ^ 14

/-- Regularization added to the squared gradient norm (`1e-6`). -/
def projEps : ℚ := 1 / 10 ^ 6

/-- `getNumFluidNeighbors i` as computed by `prepareSolve`: one (self) plus
the number of fluid neighbors of particle `i`. -/
def numFluidNeighbors (m : Model) (i : ℕ) : ℕ :=
  1 + ((m.neighbors i).filter (fun id => id.point_set_id = 0)).length

/-- The initial local position set `p` of particle `i` in `matrixFreeRHS`:
slot 0 is the particle's own solver position, slot `j+1` is neighbor `j`'s
solver position for fluid neighbors and its model position for boundary
neighbors. Slots beyond the neighbor count are unused. -/
def localP (m : Model) (x : RVec) (i : ℕ) : ℕ → Vec3 :=
  fun k =>
    if k = 0 then xVec3 x i
    else if hk : k - 1 < (m.neighbors i).length then
      let id := (m.neighbors i).get ⟨k - 1, hk⟩
      if id.point_set_id = 0 then xVec3 x id.point_id
      else m.bPos id.point_set_id id.point_id
    else 0

/-- The density of particle `i` at the local positions `p`, as summed by the
`calculateC` lambda: self weight plus kernel-weighted mass contributions of
fluid neighbors and kernel-weighted psi contributions of boundary
neighbors. -/
def calcDensity (m : Model) (i : ℕ) (p : ℕ → Vec3) : ℚ :=
  m.mass i * m.Wzero +
    (((m.neighbors i).enum).map
      (fun ji =>
        if ji.2.point_set_id = 0 then m.mass ji.2.point_id * m.W (p 0 - p (ji.1 + 1))
        else m.boundaryPsi ji.2.point_set_id ji.2.point_id * m.W (p 0 - p (ji.1 + 1)))).sum

/-- The clamped constraint value of the `calculateC` lambda:
`C = density·(1/density0) - 1`, clamped to `0` when negative. -/
def calcC (m : Model) (i : ℕ) (p : ℕ → Vec3) : ℚ :=
  let C := calcDensity m i p * (1 / m.density0) - 1
  if C < 0 then 0 else C

/-- The gradient block of neighbor slot `j+1` in the `calculateNablaC`
lambda. -/
def nablaBlockNbr (m : Model) (p : ℕ → Vec3) (j : ℕ) (id : NeighborId) : Vec3 :=
  if id.point_set_id = 0 then
    (-(1 / m.density0) * m.mass id.point_id) • m.gradW (p 0 - p (j + 1))
  else
    (-(1 / m.density0) * m.boundaryPsi id.point_set_id id.point_id) • m.gradW (p 0 - p (j + 1))

/-- The constraint gradient of the `calculateNablaC` lambda: slot 0 is the
negated sum of all neighbor blocks, slot `j+1` is neighbor `j`'s block. -/
def calcNablaC (m : Model) (i : ℕ) (p : ℕ → Vec3) : ℕ → Vec3 :=
  fun k =>
    if k = 0 then
      -(((m.neighbors i).enum).map (fun ji => nablaBlockNbr m p ji.1 ji.2)).sum
    else if hk : k - 1 < (m.neighbors i).length then
      nablaBlockNbr m p (k - 1) ((m.neighbors i).get ⟨k - 1, hk⟩)
    else 0

/-- Squared norm of the stacked gradient vector of size `3·(1+#neighbors)`
(`nablaC.squaredNorm`). -/
def nablaSqNorm (m : Model) (i : ℕ) (g : ℕ → Vec3) : ℚ :=
  ((List.range ((m.neighbors i).length + 1)).map (fun k => sqnorm3 (g k))).sum

/-- One projection move: the self slot moves by `cdg · nfn(i) · g 0` and
every fluid neighbor slot `j+1` moves by `cdg · nfn(id) · g (j+1)`;
boundary slots and out-of-range slots stay. -/
def projUpdate (m : Model) (i : ℕ) (cdg : ℚ) (g : ℕ → Vec3) (p : ℕ → Vec3) : ℕ → Vec3 :=
  fun k =>
    if k = 0 then p 0 + (cdg * (numFluidNeighbors m i : ℚ)) • g 0
    else if hk : k - 1 < (m.neighbors i).length then
      let id := (m.neighbors i).get ⟨k - 1, hk⟩
      if id.point_set_id = 0 then
        p k + (cdg * (numFluidNeighbors m id.point_id : ℚ)) • g k
      else p k
    else p k

/-- The bounded Newton-style projection loop of `matrixFreeRHS`, with the
remaining iteration budget as fuel (`fuel = max_steps - it`); returns the
final positions and the number of executed loop bodies.  The loop exits
when `|C| ≤ C_goal`, when the squared gradient norm is exactly zero, or
when the budget is exhausted; the stale-`C` behavior of the source (the
`it + 1 < max_steps` guard skipping the recomputation on the last two
bodies) is mirrored by the `1 < fuel` guard. -/
def projLoopAux (m : Model) (i : ℕ) : ℕ → ℚ → (ℕ → Vec3) → ((ℕ → Vec3) × ℕ)
  | 0, _, p => (p, 0)
  | Nat.succ fuel, C, p =>
    if |C| ≤ projCGoal then (p, 0)
    else
      let g := calcNablaC m i p
      let dg := nablaSqNorm m i g
      if dg = 0 then (p, 1)
      else
        let cdg := -C / (dg + projEps)
        let p1 := projUpdate m i cdg g p
        let C1 := if 1 < fuel then calcC m i p1 else C
        let res := projLoopAux m i fuel C1 p1
        (res.1, res.2 + 1)

/-- The full projection of particle `i`'s local positions: up to
`max_steps = 100` loop bodies starting from the freshly computed `C`. -/
def projection (m : Model) (i : ℕ) (p : ℕ → Vec3) : ((ℕ → Vec3) × ℕ) :=
  projLoopAux m i 100 (calcC m i p) p

/-- The projected local position set of particle `i` used to build the
right-hand side (whatever the loop's exit reason was). -/
def projectedP (m : Model) (x : RVec) (i : ℕ) : ℕ → Vec3 :=
  (projection m i (localP m x i)).1

/-- One particle's pass of the accumulation loop of `matrixFreeRHS`: add
the projected self position into block `i` and every projected fluid
neighbor position into that neighbor's block. -/
def rhsAccumStep (m : Model) (x : RVec) (acc : RVec) (i : ℕ) : RVec :=
  (((m.neighbors i).enum).foldl
    (fun a ji =>
      if ji.2.point_set_id = 0 then addBlock a ji.2.point_id (projectedP m x i (ji.1 + 1))
      else a)
    (addBlock acc i (projectedP m x i 0)))

/-- The full transient accumulation buffer of `matrixFreeRHS`. -/
def rhsAccumulator (m : Model) (x : RVec) : RVec :=
  (List.range m.numParticles).foldl (rhsAccumStep m x) (fun _ => 0)

/-- The right-hand side of the system (`TimeStepPF::matrixFreeRHS`): for
`n < 3*numParticles`,
`result[n] = h²·stiffness·accumulator[n] + mass[n/3]·s[n]`, where `sF` is
the flattened predicted-position vector. -/
def matrixFreeRHS (m : Model) (x sF : RVec) : RVec :=
  fun n =>
    if n < 3 * m.numParticles then
      m.h * m.h * m.stiffness * rhsAccumulator m x n + m.mass (n / 3) * sF n
    else 0

/-- The entrywise contribution of particle `i` to the right-hand-side
accumulator: the projected self position into block `i` and each projected
fluid neighbor position into its own block. -/
def rhsContribution (m : Model) (x : RVec) (i n : ℕ) : ℚ :=
  blockEntry (projectedP m x i 0) i n +
    (((m.neighbors i).enum).map
      (fun ji =>
        if ji.2.point_set_id = 0 then blockEntry (projectedP m x i (ji.1 + 1)) ji.2.point_id n
        else 0)).sum

/-- Absolute convergence tolerance of the CG solve (`tol_abs = 1e-10`). -/
def tolAbs : ℚ := 1 / 10 ^ 10

/-- Relative convergence tolerance of the CG solve (`tol_rel = 1e-8`). -/
def tolRel : ℚ := 1 / 10 ^ 8

/-- The three outcomes of `TimeStepPF::cgSolve`. -/
inductive CGSolveState where
  | ALREADY_SOLVED
  | CONVERGED
  | MAX_ITER_REACHED
deriving DecidableEq

/-- The observable outcome of one `cgSolve` call: the solution vector (the
in-place-mutated `x` of the source), the returned state, the number of
executed CG iterations, the final squared residual norm, and the trace of
squared residual norms (`delta_new` values, headed by the initial one). -/
structure CGResult where
  x : RVec
  status : CGSolveState
  count : ℕ
  deltaFinal : ℚ
  trace : List ℚ

/-- `calculateNegativeGradient`: `r = b - A·x` (the `updateRhs` flag is
modelled by the caller choosing `b`). -/
def calculateNegativeGradient (m : Model) (x b : RVec) : RVec :=
  fun n => b n - matrixFreeLHS m x n

/-- The right-hand side `b`, computed once at CG initialization. -/
def cgB (m : Model) (x0 sF : RVec) : RVec := matrixFreeRHS m x0 sF

/-- The initial residual `r = b - A·x` of a CG solve. -/
def cgR0 (m : Model) (x0 sF : RVec) : RVec :=
  calculateNegativeGradient m x0 (cgB m x0 sF)

/-- `delta_new = r.squaredNorm()` at CG initialization (also `delta_0`). -/
def cgDelta0 (m : Model) (x0 sF : RVec) : ℚ :=
  dotN m.numParticles (cgR0 m x0 sF) (cgR0 m x0 sF)

/-- The CG iteration loop with the remaining iteration budget as fuel
(starting at `numVariables = 3·numParticles`) and the running iteration
index `it` (for the every-50th-iteration restart test).  Mirrors the loop
body of `cgSolve`: `q = A·d`, `α = δ / d·q`, `x += α·d`, residual update
(incremental, or recomputed from `b` on restart iterations), convergence
test, `β = δ_new/δ_old`, `d = β·d + r`. -/
def cgLoop (m : Model) (b : RVec) :
    ℕ → ℕ → RVec → RVec → RVec → ℚ → ℚ → CGResult
  | 0, _, x, _, _, dn, _ => ⟨x, CGSolveState.MAX_ITER_REACHED, 0, dn, []⟩
  | Nat.succ fuel, it, x, r, d, dn, d0 =>
    let q := matrixFreeLHS m d
    let alpha := dn / dotN m.numParticles d q
    let x1 : RVec := fun n => x n + alpha * d n
    let r1 : RVec :=
      if (it + 1) % 50 = 0 then calculateNegativeGradient m x1 b
      else fun n => r n - alpha * q n
    let dn1 := dotN m.numParticles r1 r1
    if dn1 < tolAbs ∨ dn1 < tolRel * d0 then ⟨x1, CGSolveState.CONVERGED, 1, dn1, [dn1]⟩
    else
      let beta := dn1 / dn
      let d1 : RVec := fun n => r1 n + beta * d n
      let res := cgLoop m b fuel (it + 1) x1 r1 d1 dn1 d0
      ⟨res.x, res.status, res.count + 1, res.deltaFinal, dn1 :: res.trace⟩

/-- `TimeStepPF::cgSolve`: initialize `x` (already holding the solver
state), `b`, `r`, `d = r`; return `ALREADY_SOLVED` if the initial residual
already meets the tolerance, otherwise iterate up to `3·numParticles`
times. -/
def cgSolve (m : Model) (x0 sF : RVec) : CGResult :=
  if cgDelta0 m x0 sF < tolAbs ∨ cgDelta0 m x0 sF < tolRel * cgDelta0 m x0 sF then
    ⟨x0, CGSolveState.ALREADY_SOLVED, 0, cgDelta0 m x0 sF, [cgDelta0 m x0 sF]⟩
  else
    let res := cgLoop m (cgB m x0 sF) (3 * m.numParticles) 0 x0
      (cgR0 m x0 sF) (cgR0 m x0 sF) (cgDelta0 m x0 sF) (cgDelta0 m x0 sF)
    ⟨res.x, res.status, res.count, res.deltaFinal, cgDelta0 m x0 sF :: res.trace⟩

/-- The outer PD loop of `solvePDConstraints`: call `cgSolve` up to
`maxIterations` times on the evolving solver state, stopping early when a
call reports `ALREADY_SOLVED`; returns the final solver state and the
number of `cgSolve` calls made. -/
def solvePDLoop (m : Model) (sF : RVec) : ℕ → RVec → (RVec × ℕ)
  | 0, x => (x, 0)
  | Nat.succ k, x =>
    let res := cgSolve m x sF
    if res.status = CGSolveState.ALREADY_SOLVED then (res.x, 1)
    else
      let rest := solvePDLoop m sF k res.x
      (rest.1, rest.2 + 1)

/-- The per-particle state a step reads and writes: model position,
velocity, acceleration, and the solver scratch `oldPosition` and
`S` (predicted position). -/
structure FState where
  pos : ℕ → Vec3
  vel : ℕ → Vec3
  acc : ℕ → Vec3
  oldPos : ℕ → Vec3
  s : ℕ → Vec3

/-- `TimeStepPF::initialGuessForPositions`: per particle,
`oldPosition = position`, then both the model position and the predicted
position `S` become `position + h·velocity + h²·acceleration`. -/
def initialGuessForPositions (m : Model) (st : FState) : FState :=
  { st with
    oldPos := fun i => st.pos i
    pos := fun i => st.pos i + m.h • st.vel i + (m.h * m.h) • st.acc i
    s := fun i => st.pos i + m.h • st.vel i + (m.h * m.h) • st.acc i }

/-- `TimeStepPF::updatePositionsAndVelocity`: per particle, the model
position becomes the solved `x` block and the velocity becomes
`(newPosition - oldPosition) / h` (the position having been written
first). -/
def updatePositionsAndVelocity (m : Model) (st : FState) (x : RVec) : FState :=
  { st with
    pos := fun i => xVec3 x i
    vel := fun i => (xVec3 x i - st.oldPos i) / m.h }

/-- The flattened model positions, as loaded into `x` by `prepareSolve`. -/
def flattenPos (st : FState) : RVec := fun n => Vec3.comp (st.pos (n / 3)) (n % 3)

/-- The flattened predicted positions `S`. -/
def flattenS (st : FState) : RVec := fun n => Vec3.comp (st.s (n / 3)) (n % 3)

/-- The exactly recomputed residual `b - A·x` (the restart path of the
solver, `calculateNegativeGradient` with the stored `b`). -/
def residualRecomputed (m : Model) (b x : RVec) : RVec :=
  calculateNegativeGradient m x b

/-- The cheap incremental residual update `r - α·(A·d)` performed after
`x += α·d` on non-restart iterations. -/
def residualIncremental (m : Model) (r d : RVec) (alpha : ℚ) : RVec :=
  fun n => r n - alpha * matrixFreeLHS m d n

/-- The energy norm `e·(A·e)` of a flattened vector under the system
matrix. -/
def Anorm (m : Model) (e : RVec) : ℚ :=
  dotN m.numParticles e (matrixFreeLHS m e)

/-- The density as worded by the specification: kernel-weighted mass
contributions from self plus fluid and boundary neighbors (each neighbor's
weight coefficient being its mass for fluid, its psi for boundary). -/
def specDensity (m : Model) (i : ℕ) (p : ℕ → Vec3) : ℚ :=
  m.mass i * m.Wzero +
    (((m.neighbors i).enum).map
      (fun ji =>
        (if ji.2.point_set_id = 0 then m.mass ji.2.point_id
         else m.boundaryPsi ji.2.point_set_id ji.2.point_id) * m.W (p 0 - p (ji.1 + 1)))).sum

/-- The constraint value before clamping, as worded by the specification:
`density / restDensity - 1`. -/
def specConstraint (m : Model) (i : ℕ) (p : ℕ → Vec3) : ℚ :=
  specDensity m i p / m.density0 - 1

/-- A one-particle model with zero stiffness and trivial kernel, used to
instantiate hypotheses at concrete inputs. -/
def mUnit : Model where
  numParticles := 1
  mass := fun _ => 1
  density0 := 1
  stiffness := 0
  neighbors := fun _ => []
  boundaryPsi := fun _ _ => 0
  bPos := fun _ _ => 0
  Wzero := 0
  W := fun _ => 0
  gradW := fun _ => 0
  h := 1

/-- A model with an empty particle set. -/
def mEmpty : Model where
  numParticles := 0
  mass := fun _ => 1
  density0 := 1
  stiffness := 1
  neighbors := fun _ => []
  boundaryPsi := fun _ _ => 0
  bPos := fun _ _ => 0
  Wzero := 1
  W := fun _ => 1
  gradW := fun _ => 0
  h := 1

/-- Two isolated particles of masses 1 and 100 with zero stiffness: the
system matrix is `diag(1,1,1,100,100,100)`. -/
def mCE : Model where
  numParticles := 2
  mass := fun i => if i = 0 then 1 else 100
  density0 := 1
  stiffness := 0
  neighbors := fun _ => []
  boundaryPsi := fun _ _ => 0
  bPos := fun _ _ => 0
  Wzero := 0
  W := fun _ => 0
  gradW := fun _ => 0
  h := 1

/-- Concrete solver state for `mCE`: all solver positions at the origin. -/
def xCE : RVec := fun _ => 0

/-- Concrete predicted positions for `mCE`, chosen so the initial CG
residual is `(10,0,0,1,0,0)`. -/
def sCE : RVec := fun n => if n = 0 then 10 else if n = 3 then 1 / 100 else 0

/-- A concrete all-zero particle state. -/
def stZero : FState where
  pos := fun _ => 0
  vel := fun _ => 0
  acc := fun _ => 0
  oldPos := fun _ => 0
  s := fun _ => 0

/-- The constant-one flattened vector. -/
def xROne : RVec := fun _ => 1

/-- The zero flattened vector. -/
def xRZero : RVec := fun _ => 0

/-- A concrete right-hand side for `mUnit`: the operator applied to the
constant-one vector. -/
def bW : RVec := matrixFreeLHS mUnit xROne

/-- The concrete residual `bW - A·0` for `mUnit`. -/
def rW : RVec := fun n => bW n - matrixFreeLHS mUnit xRZero n

theorem addBlock_apply (acc : RVec) (blk : ℕ) (v : Vec3) (n : ℕ) :
    addBlock acc blk v n = acc n + blockEntry v blk n := by
  unfold addBlock blockEntry
  split_ifs <;> simp

theorem blockEntry_xVec3 (x : RVec) (j n : ℕ) :
    blockEntry (xVec3 x j) j n = if inBlock n j then x n else 0 := by
  unfold blockEntry xVec3 inBlock
  by_cases h1 : n = 3 * j
  · subst h1; simp
  · by_cases h2 : n = 3 * j + 1
    · subst h2; simp
    · by_cases h3 : n = 3 * j + 2
      · subst h3; simp
      · simp [h1, h2, h3]

/-- Pointwise value of a fold of guarded `addBlock` updates: the fold adds,
entrywise, the sum of the individual guarded contributions (this captures
why the atomic accumulation of the source is order-insensitive). -/
theorem foldl_addBlock_apply {β : Type} (P : β → Prop) [DecidablePred P]
    (blk : β → ℕ) (val : β → Vec3) :
    ∀ (l : List β) (acc : RVec) (n : ℕ),
      (l.foldl (fun a b => if P b then addBlock a (blk b) (val b) else a) acc) n
        = acc n + (l.map (fun b => if P b then blockEntry (val b) (blk b) n else 0)).sum
  | [], acc, n => by simp
  | b :: t, acc, n => by
    simp only [List.foldl_cons, List.map_cons, List.sum_cons]
    rw [foldl_addBlock_apply P blk val t _ n]
    by_cases hb : P b
    · simp only [hb, if_pos, addBlock_apply]
      ring
    · simp only [hb, if_neg, ite_false]
      ring

/-- Pointwise value of a fold over particles whose step adds a per-particle
contribution entrywise. -/
theorem foldl_particles {g : RVec → ℕ → RVec} {contrib : ℕ → ℕ → ℚ}
    (hg : ∀ acc i n, g acc i n = acc n + contrib i n) :
    ∀ (l : List ℕ) (acc : RVec) (n : ℕ),
      (l.foldl g acc) n = acc n + (l.map (fun i => contrib i n)).sum
  | [], acc, n => by simp
  | i :: t, acc, n => by
    simp only [List.foldl_cons, List.map_cons, List.sum_cons]
    rw [foldl_particles hg t _ n, hg]
    ring

theorem lhsAccumStep_apply (m : Model) (x : RVec) (acc : RVec) (i n : ℕ) :
    lhsAccumStep m x acc i n = acc n + lhsContribution m x i n := by
  unfold lhsAccumStep lhsContribution
  rw [foldl_addBlock_apply (fun id : NeighborId => id.point_set_id = 0)
        (fun id => id.point_id) (fun id => xVec3 x id.point_id) (m.neighbors i) _ n,
      addBlock_apply]
  ring

/-- The fold implementing the accumulation equals the specification's sum. -/
theorem lhsAccumulator_eq_sum (m : Model) (x : RVec) (n : ℕ) :
    lhsAccumulator m x n = specLHSAccumulator m x n := by
  unfold lhsAccumulator specLHSAccumulator
  rw [foldl_particles (lhsAccumStep_apply m x) (List.range m.numParticles) _ n]
  simp

theorem lhsContribution_factor (m : Model) (x : RVec) (i n : ℕ) :
    lhsContribution m x i n =
      ((if inBlock n i then (1 : ℚ) else 0) +
        ((m.neighbors i).map
          (fun id =>
            if id.point_set_id = 0 ∧ inBlock n id.point_id then (1 : ℚ) else 0)).sum) * x n := by
  unfold lhsContribution
  rw [add_mul, ← List.sum_map_mul_right]
  congr 1
  · rw [blockEntry_xVec3]
    split_ifs <;> simp
  · congr 1
    apply List.map_congr_left
    intro id _
    by_cases hf : id.point_set_id = 0
    · rw [if_pos hf, blockEntry_xVec3]
      by_cases hb : inBlock n id.point_id
      · simp [hb, hf]
      · simp [hb, hf]
    · simp [hf]

/-- The accumulator is entrywise a fixed multiple of `x`: the coupling term
of the operator is diagonal. -/
theorem lhsAccumulator_diag (m : Model) (x : RVec) (n : ℕ) :
    lhsAccumulator m x n = degCoef m n * x n := by
  rw [lhsAccumulator_eq_sum]
  unfold specLHSAccumulator degCoef
  rw [← List.sum_map_mul_right]
  congr 1
  apply List.map_congr_left
  intro i _
  exact lhsContribution_factor m x i n

/-- The matrix-free operator is entrywise multiplication by `Acoef`. -/
theorem matrixFreeLHS_apply (m : Model) (x : RVec) (n : ℕ) :
    matrixFreeLHS m x n = Acoef m n * x n := by
  unfold matrixFreeLHS Acoef
  split_ifs with hn
  · rw [lhsAccumulator_diag]
    ring
  · ring

theorem rhsAccumStep_apply (m : Model) (x : RVec) (acc : RVec) (i n : ℕ) :
    rhsAccumStep m x acc i n = acc n + rhsContribution m x i n := by
  unfold rhsAccumStep rhsContribution
  rw [foldl_addBlock_apply (fun ji : ℕ × NeighborId => ji.2.point_set_id = 0)
        (fun ji => ji.2.point_id) (fun ji => projectedP m x i (ji.1 + 1))
        ((m.neighbors i).enum) _ n,
      addBlock_apply]
  ring

/-- The right-hand-side accumulation equals the plain sum of the projected
per-particle contributions — in particular the projected positions are
accumulated regardless of how the projection loop exited. -/
theorem rhsAccumulator_eq_sum (m : Model) (x : RVec) (n : ℕ) :
    rhsAccumulator m x n =
      ((List.range m.numParticles).map (fun i => rhsContribution m x i n)).sum := by
  unfold rhsAccumulator
  rw [foldl_particles (rhsAccumStep_apply m x) (List.range m.numParticles) _ n]
  simp

theorem dotN_self_nonneg (N : ℕ) (u : RVec) : 0 ≤ dotN N u u := by
  unfold dotN
  apply List.sum_nonneg
  intro q hq
  simp only [List.mem_map] at hq
  obtain ⟨n, -, rfl⟩ := hq
  exact mul_self_nonneg _

/-- For a nonnegative `delta`, the relative test `delta < tol_rel · delta`
can never hold (`tol_rel = 1e-8 < 1`). -/
theorem rel_test_never (delta : ℚ) (hnn : 0 ≤ delta) : ¬delta < tolRel * delta := by
  intro hlt
  unfold tolRel at hlt
  nlinarith

/-- Claim C2: for every input vector `x`, particle `i` and coordinate `c`,
`matrixFreeLHS` writes `result[3i+c] = h²·stiffness·accumulator[3i+c] +
mass[i]·x[3i+c]`, where the accumulator is the sum over all particles of
their contributions: each particle adds its own `x` block into its own
slot and each fluid neighbor's `x` block into that neighbor's slot, and
boundary neighbors contribute nothing. -/
theorem matrixFreeLHS_formula (m : Model) (x : RVec) (i c : ℕ)
    (hi : i < m.numParticles) (hc : c < 3) :
    matrixFreeLHS m x (3 * i + c) =
      m.h * m.h * m.stiffness * specLHSAccumulator m x (3 * i + c) +
        m.mass i * x (3 * i + c) := by
  unfold matrixFreeLHS
  have hn : 3 * i + c < 3 * m.numParticles := by omega
  rw [if_pos hn, lhsAccumulator_eq_sum]
  have hdiv : (3 * i + c) / 3 = i := by omega
  rw [hdiv]

/-- Claim C3: the local constraint value of `matrixFreeRHS` is
`max(density/restDensity - 1, 0)` with the density summing the self
weight, kernel-weighted fluid-neighbor masses and kernel-weighted
boundary-neighbor psi coefficients; whenever `density/restDensity - 1` is
negative the returned value is exactly `0`. -/
theorem calculateC_clamped (m : Model) (i : ℕ) (p : ℕ → Vec3) :
    calcC m i p = max (specConstraint m i p) 0 ∧
      (specConstraint m i p < 0 → calcC m i p = 0) := by
  have hdens : calcDensity m i p = specDensity m i p := by
    unfold calcDensity specDensity
    congr 1
    apply congrArg List.sum
    apply List.map_congr_left
    intro ji _
    by_cases hf : ji.2.point_set_id = 0
    · simp [hf]
    · simp [hf]
  have hC : calcDensity m i p * (1 / m.density0) - 1 = specConstraint m i p := by
    rw [hdens]
    unfold specConstraint
    ring
  constructor
  · unfold calcC
    rw [hC]
    rcases lt_or_le (specConstraint m i p) 0 with hlt | hle
    · rw [if_pos hlt, max_eq_right hlt.le]
    · rw [if_neg (not_lt.mpr hle), max_eq_left hle]
  · intro hneg
    unfold calcC
    rw [hC]
    exact if_pos hneg

/-- Claim C6: in exact arithmetic, the cheap incremental update
`r - α·(A·d)` applied to an exact residual `r = b - A·x` equals the exact
recomputation `b - A·(x + α·d)` after the step `x += α·d`; hence the
every-50th-iteration restart, which recomputes the residual from the `b`
stored at solver initialization, leaves the residual value unchanged. -/
theorem residual_update_refines_recompute (m : Model) (b x d r : RVec) (alpha : ℚ)
    (hr : ∀ n, r n = residualRecomputed m b x n) (n : ℕ) :
    residualIncremental m r d alpha n =
      residualRecomputed m b (fun j => x j + alpha * d j) n := by
  unfold residualIncremental residualRecomputed calculateNegativeGradient at *
  rw [hr n, matrixFreeLHS_apply, matrixFreeLHS_apply, matrixFreeLHS_apply]
  ring

/-- Claim C8: the prediction stage stores the pre-step position in
`oldPosition` and writes `position + h·velocity + h²·acceleration` into
both the model position and the predicted position; after the solve, the
model position becomes the solved `x` block and the velocity becomes
`(newPosition - oldPosition)/h`. -/
theorem step_position_velocity_update (m : Model) (st : FState) (x : RVec) (i : ℕ) :
    (initialGuessForPositions m st).oldPos i = st.pos i ∧
    (initialGuessForPositions m st).pos i
      = st.pos i + m.h • st.vel i + (m.h * m.h) • st.acc i ∧
    (initialGuessForPositions m st).s i = (initialGuessForPositions m st).pos i ∧
    (updatePositionsAndVelocity m st x).pos i = xVec3 x i ∧
    (updatePositionsAndVelocity m st x).vel i
      = ((updatePositionsAndVelocity m st x).pos i - st.oldPos i) / m.h :=
  ⟨rfl, rfl, rfl, rfl, rfl⟩

/-- Claim C1: with stiffness 0, the first `cgSolve` call of a step (whose
solver state was just loaded from the freshly predicted positions) returns
`ALREADY_SOLVED` and leaves the solution vector exactly equal to the
flattened predicted positions: the operator degenerates to `mass·x`, the
right-hand side to `mass·predictedPosition`, so the initial residual is
exactly zero. -/
theorem cg_stiffness_zero_already_solved (m : Model) (st : FState)
    (hk : m.stiffness = 0) :
    (cgSolve m (flattenPos (initialGuessForPositions m st))
        (flattenS (initialGuessForPositions m st))).status
      = CGSolveState.ALREADY_SOLVED ∧
    (cgSolve m (flattenPos (initialGuessForPositions m st))
        (flattenS (initialGuessForPositions m st))).x
      = flattenPos (initialGuessForPositions m st) ∧
    ∀ n, flattenPos (initialGuessForPositions m st) n
      = flattenS (initialGuessForPositions m st) n := by
  have hxs : ∀ n, flattenPos (initialGuessForPositions m st) n
      = flattenS (initialGuessForPositions m st) n := fun n => rfl
  have hr0 : ∀ n, cgR0 m (flattenPos (initialGuessForPositions m st))
      (flattenS (initialGuessForPositions m st)) n = 0 := by
    intro n
    unfold cgR0 calculateNegativeGradient cgB matrixFreeRHS matrixFreeLHS
    by_cases hn : n < 3 * m.numParticles
    · rw [if_pos hn, if_pos hn, hk, hxs n]
      ring
    · rw [if_neg hn, if_neg hn]
      ring
  have hd0 : cgDelta0 m (flattenPos (initialGuessForPositions m st))
      (flattenS (initialGuessForPositions m st)) = 0 := by
    unfold cgDelta0 dotN
    apply List.sum_eq_zero
    intro q hq
    simp only [List.mem_map] at hq
    obtain ⟨n, -, rfl⟩ := hq
    rw [hr0 n]
    ring
  refine ⟨?_, ?_, hxs⟩ <;>
    · unfold cgSolve
      rw [hd0]
      rw [if_pos (Or.inl (by norm_num [tolAbs]))]

/-- Invariant of the CG iteration loop, by induction on the remaining
budget: assuming the entering residual fails the convergence test, the
iteration count is bounded by the budget, `ALREADY_SOLVED` is never
produced inside the loop, `CONVERGED` implies the final squared residual
passes the test, and `MAX_ITER_REACHED` implies the budget was fully used
and the final squared residual still fails the test. -/
theorem cgLoop_spec (m : Model) (b : RVec) (fuel : ℕ) :
    ∀ (it : ℕ) (x r d : RVec) (dn d0 : ℚ),
      ¬(dn < tolAbs ∨ dn < tolRel * d0) →
      (cgLoop m b fuel it x r d dn d0).count ≤ fuel ∧
      (cgLoop m b fuel it x r d dn d0).status ≠ CGSolveState.ALREADY_SOLVED ∧
      ((cgLoop m b fuel it x r d dn d0).status = CGSolveState.CONVERGED →
        ((cgLoop m b fuel it x r d dn d0).deltaFinal < tolAbs ∨
          (cgLoop m b fuel it x r d dn d0).deltaFinal < tolRel * d0)) ∧
      ((cgLoop m b fuel it x r d dn d0).status = CGSolveState.MAX_ITER_REACHED →
        (cgLoop m b fuel it x r d dn d0).count = fuel ∧
        ¬((cgLoop m b fuel it x r d dn d0).deltaFinal < tolAbs ∨
          (cgLoop m b fuel it x r d dn d0).deltaFinal < tolRel * d0)) := by
  induction fuel with
  | zero =>
    intro it x r d dn d0 hdn
    refine ⟨le_refl 0, by simp [cgLoop], by simp [cgLoop], fun _ => ⟨rfl, ?_⟩⟩
    simpa [cgLoop] using hdn
  | succ fuel ih =>
    intro it x r d dn d0 hdn
    by_cases hres : (it + 1) % 50 = 0 <;>
      [simp only [cgLoop, hres, reduceIte]; skip] <;>
      [skip; simp only [cgLoop, hres, reduceIte]] <;>
      · split
        · exact ⟨Nat.succ_le_succ (Nat.zero_le fuel), by simp, fun _ => by assumption, by simp⟩
        · rename_i hnc
          obtain ⟨h1, h2, h3, h4⟩ := ih (it + 1) _ _ _ _ d0 hnc
          exact ⟨by simpa using Nat.add_le_add_right h1 1, h2, h3,
            fun hst => ⟨by simpa using (h4 hst).1, (h4 hst).2⟩⟩

/-- Claim C5: `cgSolve` performs at most `3·particleCount` iterations; the
convergence test (squared residual `< 1e-10` absolutely or `< 1e-8` times
the initial squared residual) is applied before the loop — returning
`ALREADY_SOLVED` with the solution untouched — and after every iteration —
returning `CONVERGED`; when no iteration satisfies it the budget is fully
used, `MAX_ITER_REACHED` is returned and the computed solution is kept. -/
theorem cgSolve_policy (m : Model) (x0 sF : RVec) :
    (cgSolve m x0 sF).count ≤ 3 * m.numParticles ∧
    ((cgSolve m x0 sF).status = CGSolveState.ALREADY_SOLVED ↔
      (cgDelta0 m x0 sF < tolAbs ∨ cgDelta0 m x0 sF < tolRel * cgDelta0 m x0 sF)) ∧
    ((cgSolve m x0 sF).status = CGSolveState.ALREADY_SOLVED →
      (cgSolve m x0 sF).x = x0 ∧ (cgSolve m x0 sF).count = 0) ∧
    ((cgSolve m x0 sF).status = CGSolveState.CONVERGED →
      ((cgSolve m x0 sF).deltaFinal < tolAbs ∨
        (cgSolve m x0 sF).deltaFinal < tolRel * cgDelta0 m x0 sF)) ∧
    ((cgSolve m x0 sF).status = CGSolveState.MAX_ITER_REACHED →
      (cgSolve m x0 sF).count = 3 * m.numParticles ∧
      ¬((cgSolve m x0 sF).deltaFinal < tolAbs ∨
        (cgSolve m x0 sF).deltaFinal < tolRel * cgDelta0 m x0 sF)) := by
  unfold cgSolve
  by_cases hc : cgDelta0 m x0 sF < tolAbs ∨ cgDelta0 m x0 sF < tolRel * cgDelta0 m x0 sF
  · rw [if_pos hc]
    exact ⟨Nat.zero_le _, by simp [hc], fun _ => ⟨rfl, rfl⟩, by simp, by simp⟩
  · rw [if_neg hc]
    obtain ⟨h1, h2, h3, h4⟩ := cgLoop_spec m (cgB m x0 sF) (3 * m.numParticles) 0 x0
      (cgR0 m x0 sF) (cgR0 m x0 sF) (cgDelta0 m x0 sF) (cgDelta0 m x0 sF) hc
    refine ⟨h1, ?_, ?_, h3, fun hst => h4 hst⟩
    · exact ⟨fun hst => absurd hst h2, fun hcnd => absurd hcnd hc⟩
    · exact fun hst => absurd hst h2

/-- Claim C10: `cgSolve` returns `ALREADY_SOLVED` exactly when the initial
squared residual norm is below the absolute threshold `1e-10`: since
`delta_0` is assigned the same value as the initial `delta_new`, the
relative criterion `delta_new < 1e-8·delta_0` can never be the sole
trigger of the pre-loop exit. -/
theorem already_solved_iff_absolute (m : Model) (x0 sF : RVec) :
    ((cgSolve m x0 sF).status = CGSolveState.ALREADY_SOLVED ↔
      cgDelta0 m x0 sF < tolAbs) := by
  have hnn : 0 ≤ cgDelta0 m x0 sF := dotN_self_nonneg _ _
  have hrel := rel_test_never _ hnn
  unfold cgSolve
  by_cases hc : cgDelta0 m x0 sF < tolAbs ∨ cgDelta0 m x0 sF < tolRel * cgDelta0 m x0 sF
  · rw [if_pos hc]
    exact iff_of_true rfl (hc.resolve_right hrel)
  · rw [if_neg hc]
    have h2 := (cgLoop_spec m (cgB m x0 sF) (3 * m.numParticles) 0 x0
      (cgR0 m x0 sF) (cgR0 m x0 sF) (cgDelta0 m x0 sF) (cgDelta0 m x0 sF) hc).2.1
    exact ⟨fun hst => absurd hst h2, fun habs => absurd (Or.inl habs) hc⟩

/-- Claim C9: for an empty particle set the implicit solve is a no-op:
the operator and right-hand side vanish everywhere, `cgSolve` finds an
initial squared residual of `0` and returns `ALREADY_SOLVED` leaving the
solver state untouched, and the outer PD loop stops after its first
solve. -/
theorem empty_model_noop (m : Model) (x sF : RVec) (k : ℕ)
    (hN : m.numParticles = 0) :
    (∀ (y : RVec) (n : ℕ), matrixFreeLHS m y n = 0) ∧
    (∀ n, matrixFreeRHS m x sF n = 0) ∧
    cgSolve m x sF = ⟨x, CGSolveState.ALREADY_SOLVED, 0, 0, [0]⟩ ∧
    solvePDLoop m sF (k + 1) x = (x, 1) := by
  have hd0 : cgDelta0 m x sF = 0 := by
    unfold cgDelta0 dotN
    rw [hN]
    simp
  have hsolve : cgSolve m x sF = ⟨x, CGSolveState.ALREADY_SOLVED, 0, 0, [0]⟩ := by
    unfold cgSolve
    rw [hd0, if_pos (Or.inl (by norm_num [tolAbs]))]
  refine ⟨?_, ?_, hsolve, ?_⟩
  · intro y n
    unfold matrixFreeLHS
    rw [if_neg (by omega)]
  · intro n
    unfold matrixFreeRHS
    rw [if_neg (by omega)]
  · simp [solvePDLoop, hsolve]

/-- The projection loop's body count never exceeds its remaining budget. -/
theorem projLoopAux_count_le (m : Model) (i : ℕ) :
    ∀ (fuel : ℕ) (C : ℚ) (p : ℕ → Vec3), (projLoopAux m i fuel C p).2 ≤ fuel := by
  intro fuel
  induction fuel with
  | zero => intro C p; simp [projLoopAux]
  | succ fuel ih =>
    intro C p
    simp only [projLoopAux]
    split_ifs with h1 h2 h3 <;>
      first
        | exact Nat.zero_le _
        | exact Nat.succ_le_succ (Nat.zero_le fuel)
        | exact Nat.succ_le_succ (ih _ _)

/-- With `|C|` within the goal the projection loop exits at once. -/
theorem projLoopAux_stop (m : Model) (i : ℕ) (fuel : ℕ) (C : ℚ) (p : ℕ → Vec3)
    (hC : |C| ≤ projCGoal) : projLoopAux m i (fuel + 1) C p = (p, 0) := by
  simp [projLoopAux, hC]

/-- With an exactly zero squared gradient norm the loop body breaks without
moving any position. -/
theorem projLoopAux_degenerate (m : Model) (i : ℕ) (fuel : ℕ) (C : ℚ) (p : ℕ → Vec3)
    (hC : ¬|C| ≤ projCGoal) (hg : nablaSqNorm m i (calcNablaC m i p) = 0) :
    projLoopAux m i (fuel + 1) C p = (p, 1) := by
  simp [projLoopAux, hC, hg]

/-- One full body of the projection loop: positions move by
`projUpdate` with step `-C/(‖∇C‖² + 1e-6)` and the loop continues on the
recomputed constraint value. -/
theorem projLoopAux_step (m : Model) (i : ℕ) (fuel : ℕ) (C : ℚ) (p : ℕ → Vec3)
    (hC : ¬|C| ≤ projCGoal) (hg : nablaSqNorm m i (calcNablaC m i p) ≠ 0)
    (hfuel : 1 < fuel) :
    projLoopAux m i (fuel + 1) C p =
      ((projLoopAux m i fuel
          (calcC m i (projUpdate m i (-C / (nablaSqNorm m i (calcNablaC m i p) + projEps))
            (calcNablaC m i p) p))
          (projUpdate m i (-C / (nablaSqNorm m i (calcNablaC m i p) + projEps))
            (calcNablaC m i p) p)).1,
        (projLoopAux m i fuel
          (calcC m i (projUpdate m i (-C / (nablaSqNorm m i (calcNablaC m i p) + projEps))
            (calcNablaC m i p) p))
          (projUpdate m i (-C / (nablaSqNorm m i (calcNablaC m i p) + projEps))
            (calcNablaC m i p) p)).2 + 1) := by
  simp [projLoopAux, hC, hg, hfuel]

/-- The self slot moves by the step times the particle's own fluid-neighbor
count times its gradient block. -/
theorem projUpdate_self (m : Model) (i : ℕ) (cdg : ℚ) (g p : ℕ → Vec3) :
    projUpdate m i cdg g p 0 = p 0 + (cdg * (numFluidNeighbors m i : ℚ)) • g 0 := by
  simp [projUpdate]

/-- Each fluid neighbor slot moves by the step times that neighbor's
fluid-neighbor count times its gradient block. -/
theorem projUpdate_fluid (m : Model) (i : ℕ) (cdg : ℚ) (g p : ℕ → Vec3)
    (j : ℕ) (hj : j < (m.neighbors i).length)
    (hf : ((m.neighbors i).get ⟨j, hj⟩).point_set_id = 0) :
    projUpdate m i cdg g p (j + 1) =
      p (j + 1) +
        (cdg * (numFluidNeighbors m ((m.neighbors i).get ⟨j, hj⟩).point_id : ℚ)) • g (j + 1) := by
  have hf2 : (m.neighbors i)[j].point_set_id = 0 := by simpa using hf
  unfold projUpdate
  simp [hj, hf2]

/-- Boundary neighbor slots are not moved by the projection update. -/
theorem projUpdate_nonfluid (m : Model) (i : ℕ) (cdg : ℚ) (g p : ℕ → Vec3)
    (j : ℕ) (hj : j < (m.neighbors i).length)
    (hf : ((m.neighbors i).get ⟨j, hj⟩).point_set_id ≠ 0) :
    projUpdate m i cdg g p (j + 1) = p (j + 1) := by
  have hf2 : ¬(m.neighbors i)[j].point_set_id = 0 := by simpa using hf
  unfold projUpdate
  simp [hj, hf2]

/-- Claim C4: the local projection loop executes at most 100 bodies; it
exits immediately when `|C| ≤ 1e-14` and breaks without moving anything
when the squared gradient norm is exactly zero; otherwise one body moves
the positions by `projUpdate` with step `-C/(‖∇C‖² + 1e-6)` — the self
slot by the step times its own fluid-neighbor count times its gradient
block, each fluid neighbor slot by the step times that neighbor's
fluid-neighbor count times its gradient block, boundary slots untouched —
and the right-hand-side accumulation uses the projected positions with no
condition on the loop's exit reason, so hitting the cap is not an error. -/
theorem projection_policy (m : Model) (i : ℕ) (p : ℕ → Vec3) :
    (projection m i p).2 ≤ 100 ∧
    (|calcC m i p| ≤ projCGoal → projection m i p = (p, 0)) ∧
    (¬|calcC m i p| ≤ projCGoal → nablaSqNorm m i (calcNablaC m i p) = 0 →
      projection m i p = (p, 1)) ∧
    (¬|calcC m i p| ≤ projCGoal → nablaSqNorm m i (calcNablaC m i p) ≠ 0 →
      projection m i p =
        ((projLoopAux m i 99
            (calcC m i (projUpdate m i
              (-(calcC m i p) / (nablaSqNorm m i (calcNablaC m i p) + projEps))
              (calcNablaC m i p) p))
            (projUpdate m i
              (-(calcC m i p) / (nablaSqNorm m i (calcNablaC m i p) + projEps))
              (calcNablaC m i p) p)).1,
          (projLoopAux m i 99
            (calcC m i (projUpdate m i
              (-(calcC m i p) / (nablaSqNorm m i (calcNablaC m i p) + projEps))
              (calcNablaC m i p) p))
            (projUpdate m i
              (-(calcC m i p) / (nablaSqNorm m i (calcNablaC m i p) + projEps))
              (calcNablaC m i p) p)).2 + 1)) ∧
    (∀ (cdg : ℚ) (g q : ℕ → Vec3),
      projUpdate m i cdg g q 0 = q 0 + (cdg * (numFluidNeighbors m i : ℚ)) • g 0 ∧
      ∀ (j : ℕ) (hj : j < (m.neighbors i).length),
        (((m.neighbors i).get ⟨j, hj⟩).point_set_id = 0 →
          projUpdate m i cdg g q (j + 1) =
            q (j + 1) +
              (cdg * (numFluidNeighbors m ((m.neighbors i).get ⟨j, hj⟩).point_id : ℚ)) •
                g (j + 1)) ∧
        (((m.neighbors i).get ⟨j, hj⟩).point_set_id ≠ 0 →
          projUpdate m i cdg g q (j + 1) = q (j + 1))) ∧
    (∀ (x : RVec) (n : ℕ), rhsAccumulator m x n =
      ((List.range m.numParticles).map (fun j => rhsContribution m x j n)).sum) := by
  refine ⟨projLoopAux_count_le m i 100 _ _, ?_, ?_, ?_, ?_,
    fun x n => rhsAccumulator_eq_sum m x n⟩
  · intro hC
    exact projLoopAux_stop m i 99 _ p hC
  · intro hC hg
    exact projLoopAux_degenerate m i 99 _ p hC hg
  · intro hC hg
    exact projLoopAux_step m i 99 _ p hC hg (by norm_num)
  · intro cdg g q
    exact ⟨projUpdate_self m i cdg g q, fun j hj =>
      ⟨projUpdate_fluid m i cdg g q j hj, projUpdate_nonfluid m i cdg g q j hj⟩⟩

theorem sum_map_sub (l : List ℕ) (f g : ℕ → ℚ) :
    (l.map fun n => f n - g n).sum = (l.map f).sum - (l.map g).sum := by
  induction l with
  | nil => simp
  | cons a t ih => simp [ih]; ring

/-- Claim C7 (amended): the squared residual 2-norm is not monotone along
the CG iterations (see the counterexample); what a non-restart CG
iteration of this solver does decrease — in exact arithmetic, under the
invariants it maintains (`r = b - A·x` and `d·r = r·r`) and positive
curvature `d·(A·d) > 0` — is the energy norm `e·(A·e)` of the error
`x* - x` against any exact solution `x*` of `A·x* = b`; moreover the
update preserves the two invariants for the next iteration. -/
theorem cg_energy_norm_monotone (m : Model) (b xstar x r d : RVec)
    (hb : ∀ n, b n = matrixFreeLHS m xstar n)
    (hr : ∀ n, r n = b n - matrixFreeLHS m x n)
    (hdr : dotN m.numParticles d r = dotN m.numParticles r r)
    (hpos : 0 < dotN m.numParticles d (matrixFreeLHS m d)) :
    Anorm m (fun n => xstar n -
        (x n + dotN m.numParticles r r / dotN m.numParticles d (matrixFreeLHS m d) * d n)) ≤
      Anorm m (fun n => xstar n - x n) ∧
    (∀ n, r n - dotN m.numParticles r r / dotN m.numParticles d (matrixFreeLHS m d) *
          matrixFreeLHS m d n =
        b n - matrixFreeLHS m (fun j => x j +
          dotN m.numParticles r r / dotN m.numParticles d (matrixFreeLHS m d) * d j) n) ∧
    (∀ beta : ℚ,
      dotN m.numParticles
          (fun n => (r n - dotN m.numParticles r r / dotN m.numParticles d (matrixFreeLHS m d) *
              matrixFreeLHS m d n) + beta * d n)
          (fun n => r n - dotN m.numParticles r r / dotN m.numParticles d (matrixFreeLHS m d) *
              matrixFreeLHS m d n) =
        dotN m.numParticles
          (fun n => r n - dotN m.numParticles r r / dotN m.numParticles d (matrixFreeLHS m d) *
              matrixFreeLHS m d n)
          (fun n => r n - dotN m.numParticles r r / dotN m.numParticles d (matrixFreeLHS m d) *
              matrixFreeLHS m d n)) := by
  have hγ : dotN m.numParticles d (matrixFreeLHS m d) ≠ 0 := ne_of_gt hpos
  set γ := dotN m.numParticles d (matrixFreeLHS m d) with hγdef
  set δ := dotN m.numParticles r r with hδdef
  set α := δ / γ with hαdef
  have hcr : ∀ n, r n = Acoef m n * (xstar n - x n) := by
    intro n
    rw [hr n, hb n, matrixFreeLHS_apply, matrixFreeLHS_apply]
    ring
  have hG2 : ∀ n, r n - α * matrixFreeLHS m d n =
      b n - matrixFreeLHS m (fun j => x j + α * d j) n := by
    intro n
    rw [hr n]
    simp only [matrixFreeLHS_apply]
    ring
  have hγsum : γ = ((List.range (3 * m.numParticles)).map
      (fun n => d n * (Acoef m n * d n))).sum := by
    rw [hγdef]
    unfold dotN
    congr 1
    apply List.map_congr_left
    intro n _
    rw [matrixFreeLHS_apply]
  have hdr1 : dotN m.numParticles d (fun n => r n - α * matrixFreeLHS m d n) = 0 := by
    unfold dotN
    have hfun : (fun n => d n * (r n - α * matrixFreeLHS m d n)) =
        fun n => d n * r n - α * (d n * (Acoef m n * d n)) := by
      funext n
      rw [matrixFreeLHS_apply]
      ring
    rw [hfun, sum_map_sub]
    have h1 : ((List.range (3 * m.numParticles)).map (fun n => d n * r n)).sum
        = dotN m.numParticles d r := rfl
    have h2 : ((List.range (3 * m.numParticles)).map
        (fun n => α * (d n * (Acoef m n * d n)))).sum = α * γ := by
      rw [List.sum_map_mul_left, ← hγsum]
    rw [h1, h2, hdr, hαdef, div_mul_cancel₀ δ hγ]
    ring
  refine ⟨?_, hG2, ?_⟩
  · have hA : ∀ v : RVec, Anorm m v = ((List.range (3 * m.numParticles)).map
        (fun n => v n * (Acoef m n * v n))).sum := by
      intro v
      unfold Anorm dotN
      congr 1
      apply List.map_congr_left
      intro n _
      rw [matrixFreeLHS_apply]
    have hdiff : Anorm m (fun n => xstar n - x n) -
        Anorm m (fun n => xstar n - (x n + α * d n)) = δ * δ / γ := by
      rw [hA, hA, ← sum_map_sub]
      have hfun : (fun n => (xstar n - x n) * (Acoef m n * (xstar n - x n)) -
          (xstar n - (x n + α * d n)) * (Acoef m n * (xstar n - (x n + α * d n)))) =
          fun n => 2 * α * (d n * r n) - α * α * (d n * (Acoef m n * d n)) := by
        funext n
        rw [hcr n]
        ring
      rw [hfun]
      have hsplit : (fun n => 2 * α * (d n * r n) - α * α * (d n * (Acoef m n * d n))) =
          fun n => (2 * α) * (d n * r n) - (α * α) * (d n * (Acoef m n * d n)) := by
        funext n
        ring
      rw [hsplit, sum_map_sub, List.sum_map_mul_left, List.sum_map_mul_left]
      have h1 : ((List.range (3 * m.numParticles)).map (fun n => d n * r n)).sum
          = dotN m.numParticles d r := rfl
      rw [h1, hdr, ← hγsum, hαdef]
      field_simp
      ring
    have hnn : 0 ≤ δ * δ / γ := div_nonneg (mul_self_nonneg δ) (le_of_lt hpos)
    linarith
  · intro beta
    unfold dotN
    have hfun : (fun n => ((r n - α * matrixFreeLHS m d n) + beta * d n) *
        (r n - α * matrixFreeLHS m d n)) =
        fun n => (r n - α * matrixFreeLHS m d n) * (r n - α * matrixFreeLHS m d n) +
          beta * (d n * (r n - α * matrixFreeLHS m d n)) := by
      funext n
      ring
    rw [hfun]
    have hadd : ((List.range (3 * m.numParticles)).map
        (fun n => (r n - α * matrixFreeLHS m d n) * (r n - α * matrixFreeLHS m d n) +
          beta * (d n * (r n - α * matrixFreeLHS m d n)))).sum =
        ((List.range (3 * m.numParticles)).map
          (fun n => (r n - α * matrixFreeLHS m d n) * (r n - α * matrixFreeLHS m d n))).sum +
        ((List.range (3 * m.numParticles)).map
          (fun n => beta * (d n * (r n - α * matrixFreeLHS m d n)))).sum := by
      exact List.sum_map_add
    rw [hadd, List.sum_map_mul_left]
    have h0 : ((List.range (3 * m.numParticles)).map
        (fun n => d n * (r n - α * matrixFreeLHS m d n))).sum = 0 := hdr1
    rw [h0]
    ring

set_option allowUnsafeReducibility true

attribute [local semireducible] Rat.inv Rat.mul Rat.add Rat.sub

/-- Claim C7 (counterexample): running `cgSolve` on two isolated particles
of masses 1 and 100 (system matrix `diag(1,1,1,100,100,100)`) with initial
residual `(10,0,0,1,0,0)` yields the squared-residual trace
`101, 989901/400, 0`: the squared residual norm strictly increases from
the initial value to the value after the first iteration, and the first
iteration (`cg_it = 0`) is not a restart iteration since
`(0+1) % 50 ≠ 0` — refuting monotone residual reduction. -/
theorem residual_increase_counterexample :
    (cgSolve mCE xCE sCE).trace = [101, 989901 / 400, 0] ∧
    ¬((989901 / 400 : ℚ) ≤ 101) ∧ (0 + 1) % 50 ≠ 0 := by
  decide

/-- Witness for claim C1 at a concrete zero-stiffness model and state. -/
theorem cg_stiffness_zero_already_solved_witness :
    (cgSolve mUnit (flattenPos (initialGuessForPositions mUnit stZero))
        (flattenS (initialGuessForPositions mUnit stZero))).status
      = CGSolveState.ALREADY_SOLVED :=
  (cg_stiffness_zero_already_solved mUnit stZero rfl).1

/-- Witness for claim C2 at a concrete model, vector and index. -/
theorem matrixFreeLHS_formula_witness :
    matrixFreeLHS mUnit (fun n => (n : ℚ)) (3 * 0 + 1) =
      mUnit.h * mUnit.h * mUnit.stiffness *
          specLHSAccumulator mUnit (fun n => (n : ℚ)) (3 * 0 + 1) +
        mUnit.mass 0 * (fun n => (n : ℚ)) (3 * 0 + 1) :=
  matrixFreeLHS_formula mUnit (fun n => (n : ℚ)) 0 1 (by decide) (by decide)

/-- Witness for claim C3: an isolated particle below rest density has a
clamped constraint value of exactly zero. -/
theorem calculateC_clamped_witness : calcC mUnit 0 (fun _ => 0) = 0 :=
  (calculateC_clamped mUnit 0 (fun _ => 0)).2 (by decide)

/-- Witness for claim C4: a particle already satisfying its constraint
leaves the projection loop after zero bodies with unchanged positions. -/
theorem projection_policy_witness :
    projection mUnit 0 (fun _ => 0) = ((fun _ => 0), 0) :=
  (projection_policy mUnit 0 (fun _ => 0)).2.1 (by decide)

/-- Witness for claim C5: an `ALREADY_SOLVED` call keeps the solver state
untouched and counts zero iterations. -/
theorem cgSolve_policy_witness :
    (cgSolve mEmpty xCE sCE).x = xCE ∧ (cgSolve mEmpty xCE sCE).count = 0 :=
  (cgSolve_policy mEmpty xCE sCE).2.2.1 (by decide)

/-- Witness for claim C6 at concrete vectors over `mUnit`. -/
theorem residual_update_refines_recompute_witness :
    residualIncremental mUnit
        (residualRecomputed mUnit (fun _ => 1) (fun _ => 0)) (fun _ => 1) 2 0 =
      residualRecomputed mUnit (fun _ => 1)
        (fun j => (fun _ : ℕ => (0 : ℚ)) j + 2 * (fun _ : ℕ => (1 : ℚ)) j) 0 :=
  residual_update_refines_recompute mUnit (fun _ => 1) (fun _ => 0) (fun _ => 1)
    (residualRecomputed mUnit (fun _ => 1) (fun _ => 0)) 2 (fun _ => rfl) 0

/-- Witness for the amended claim C7 at a concrete system over `mUnit`. -/
theorem cg_energy_norm_monotone_witness :
    Anorm mUnit (fun n => xROne n -
        (xRZero n + dotN mUnit.numParticles rW rW /
          dotN mUnit.numParticles rW (matrixFreeLHS mUnit rW) * rW n)) ≤
      Anorm mUnit (fun n => xROne n - xRZero n) :=
  (cg_energy_norm_monotone mUnit bW xROne xRZero rW rW
    (fun _ => rfl) (fun _ => rfl) rfl (by decide)).1

/-- Witness for claim C9 at a concrete empty model. -/
theorem empty_model_noop_witness :
    solvePDLoop mEmpty sCE (0 + 1) xCE = (xCE, 1) :=
  (empty_model_noop mEmpty xCE sCE 0 rfl).2.2.2

/-- Witness for claim C10: a zero initial residual makes `cgSolve` report
`ALREADY_SOLVED`. -/
theorem already_solved_iff_absolute_witness :
    (cgSolve mEmpty xCE sCE).status = CGSolveState.ALREADY_SOLVED :=
  (already_solved_iff_absolute mEmpty xCE sCE).mpr (by decide)

end PF

